import Mathlib

/-!
Verification development for the `anydo` Home Assistant integration
(`custom_components/anydo`).

Shallow embedding conventions:
* Instants are modelled as naturals counting milliseconds since the Unix
  epoch (the Any.do API delivers `dueDate` in epoch milliseconds, and
  `_parse_due_date` turns it into a UTC `datetime`; comparing those
  `datetime`s is comparing the underlying millisecond counts).
* `datetime.date()` on a UTC instant is modelled by integer division by
  the number of milliseconds per day.
* Python dictionaries built by `create_anydo_task` are modelled by the
  structure `AnydoTask`; Python's `==` on those dictionaries is structure
  equality.  The `all_day` key is present only for tasks without a due
  date, hence it is an `Option Bool` (`none` = key absent).
* The display-only rendering of the chosen event's timestamps into
  strings (end of `AnydoListData.update`) is not modelled: it only
  reformats the already-chosen event for the host calendar UI.
-/

namespace Anydo

/-- Milliseconds in one day, used to pass from an instant to its UTC
calendar date. -/
def msPerDay : Nat := 86400000

/-- The UTC calendar date (as a day count) of an instant given in epoch
milliseconds; models `datetime.date()` on a UTC datetime. -/
def dateOf (ms : Nat) : Nat := ms / msPerDay

/-- A user-defined tag, as returned by `user.labels()`: we only need its
`id` and `name` fields (`calendar.py` reads exactly those). -/
structure Label where
  id : Nat
  name : String
  deriving DecidableEq, Repr

/-- The fields of a raw Any.do task (a `Task` resource's backing JSON)
that `calendar.py` reads: `title`, `note`, `assignedTo`, `status`, `id`,
`labels`, `dueDate` (epoch milliseconds, `0` meaning no due date, which
also models an absent/null value since both are falsy in the source) and
`list_id`. -/
structure RawTask where
  title : String
  note : String
  assignedTo : String
  status : String
  id : String
  labels : List Nat
  dueDate : Nat
  list_id : Nat
  deriving DecidableEq, Repr

/-- The event dictionary built by `AnydoListData.create_anydo_task`.
`«end»` is `none` when the task has no due date; `all_day` is `none`
when the `all_day` key is absent (tasks with a due date). -/
structure AnydoTask where
  summary : String
  notes : String
  owner : String
  completed : Bool
  description : String
  tags : List String
  start : Nat
  «end» : Option Nat
  due_today : Bool
  overdue : Bool
  all_day : Option Bool
  deriving DecidableEq, Repr

/-- One step of the linear scan in `AnydoListData.select_best_task`: the
body of the `for proposed_event in list_tasks` loop, deciding whether
`proposed` replaces the current `event`. -/
def select_step (event proposed : AnydoTask) : AnydoTask :=
  if event = proposed then event
  else if proposed.completed then event
  else
    match proposed.«end», event.«end» with
    | none, none => proposed
    | none, some _ => event
    | some _, none => proposed
    | some pe, some ee =>
      if dateOf pe > dateOf ee then event
      else if dateOf pe < dateOf ee then proposed
      else if pe < ee then proposed
      else event

/-- Embedding of `AnydoListData.select_best_task`: start from the last element of the
list (`list_tasks[-1]`), then scan the whole list in order applying
`select_step`.  On the empty list the source raises `IndexError`;
modelled as `none`. -/
def select_best_task (list_tasks : List AnydoTask) : Option AnydoTask :=
  match list_tasks.getLast? with
  | none => none
  | some last => some (list_tasks.foldl select_step last)

/-- The select-and-remove loop of `AnydoListData.update` (lines 564-568):
repeatedly pick the best task, remove its first occurrence
(`list_tasks.remove(best_task)` removes the first element equal to it),
and append it to the ranking.  Recursion is driven by the list length,
which drops by one on every round because the selected task is a member
of the list. -/
def rank_aux : Nat → List AnydoTask → List AnydoTask
  | 0, _ => []
  | _, [] => []
  | fuel + 1, t :: ts =>
    match select_best_task (t :: ts) with
    | none => []
    | some best => best :: rank_aux fuel ((t :: ts).erase best)

/-- The full ranking produced by one `update` cycle: the contents of
`all_list_tasks` after the while loop. -/
def rank_tasks (list_tasks : List AnydoTask) : List AnydoTask :=
  rank_aux list_tasks.length list_tasks

/-- The static per-list state of `AnydoListData`: the optional list id,
the user's tags (`self._tags`), the due-date horizon in days
(`self._due_date_days`, stored as a day count), the tag whitelist and
the list-id whitelist. -/
structure ListConfig where
  id : Option Nat
  tags : List Label
  due_date_days : Option Nat
  tag_whitelist : List String
  list_id_whitelist : List Nat
  deriving DecidableEq, Repr

/-- Milliseconds in one hour: the overdue clamp `timedelta(hours=1)`. -/
def msPerHour : Nat := 3600000

/-- Resolution of a raw task's label ids against the user's tags
(`task[TAGS]` in `create_anydo_task`): lowercased names of the user tags
whose id occurs among the task's labels; the empty list when the task
has no labels (falsy `data["labels"]`). -/
def resolve_tags (cfg : ListConfig) (data : RawTask) : List String :=
  if data.labels ≠ [] then
    (cfg.tags.filter (fun tag => tag.id ∈ data.labels)).map
      (fun tag => tag.name.toLower)
  else []

/-- The event dictionary as assembled field by field in
`create_anydo_task`: the five unconditional fields, the resolved tags,
the acquisition start time, and the due-date-dependent fields. -/
def mk_task (data : RawTask) (tags : List String) (start : Nat)
    (e : Option Nat) (due_today overdue : Bool) (all_day : Option Bool) :
    AnydoTask :=
  { summary := data.title, notes := data.note, owner := data.assignedTo,
    completed := data.status = "CHECKED",
    description := "https://desktop.any.do/agenda/tasks/" ++ data.id,
    tags := tags, start := start, «end» := e, due_today := due_today,
    overdue := overdue, all_day := all_day }

/-- Embedding of `AnydoListData.create_anydo_task`.  `now` is the instant returned by
`dt.utcnow()` (used both for `task[START]` and for the horizon check);
`today` is the local calendar date returned by `datetime.today().date()`,
given as a day count.  Returns `none` when the task is filtered out. -/
def create_anydo_task (cfg : ListConfig) (now today : Nat) (data : RawTask) :
    Option AnydoTask :=
  if cfg.tag_whitelist ≠ [] ∧
      ¬ (cfg.tag_whitelist.any (fun tag => tag ∈ resolve_tags cfg data)) then
    none
  else
    if data.dueDate ≠ 0 then
      if ∃ d, cfg.due_date_days = some d ∧
          data.dueDate > now + d * msPerDay then
        none
      else
        if data.dueDate ≤ now then
          some (mk_task data (resolve_tags cfg data) now
            (some (now + msPerHour)) (dateOf data.dueDate = today) true none)
        else
          some (mk_task data (resolve_tags cfg data) now
            (some data.dueDate) (dateOf data.dueDate = today) false none)
    else
      if cfg.due_date_days.isSome then none
      else
        some (mk_task data (resolve_tags cfg data) now none false false
          (some true))

/-- The mutable state of `AnydoListData` that `update` reads and
writes: the currently selected event and the ranked task list. -/
structure ListState where
  event : Option AnydoTask
  all_list_tasks : List AnydoTask
  deriving DecidableEq, Repr

/-- The list-level filter at the top of `AnydoListData.update`: all of
the user's tasks when no id and no whitelist is configured, the
whitelisted lists' tasks when a whitelist is configured, or just this
list's tasks when the list has an id. -/
def filter_list_tasks (cfg : ListConfig) (user_tasks : List RawTask) :
    List RawTask :=
  match cfg.id with
  | none => user_tasks.filter
      (fun t => cfg.list_id_whitelist = [] ∨ t.list_id ∈ cfg.list_id_whitelist)
  | some i => user_tasks.filter (fun t => t.list_id = i)

/-- Embedding of `AnydoListData.update`: filter the user's tasks to this list, map
them to events, and if anything valid remains, clear and rebuild the
ranking and select its head as the current event; otherwise set the
event to `None` and return early, leaving `all_list_tasks` untouched.
The trailing display-only rendering of the chosen event's timestamps
into strings is not modelled (see the file header). -/
def update (cfg : ListConfig) (now today : Nat) (user_tasks : List RawTask)
    (s : ListState) : ListState :=
  if filter_list_tasks cfg user_tasks = [] then { s with event := none }
  else
    if (filter_list_tasks cfg user_tasks).filterMap
        (create_anydo_task cfg now today) = [] then
      { s with event := none }
    else
      { event := (rank_tasks ((filter_list_tasks cfg user_tasks).filterMap
          (create_anydo_task cfg now today))).head?,
        all_list_tasks := rank_tasks ((filter_list_tasks cfg user_tasks).filterMap
          (create_anydo_task cfg now today)) }

/-- The `all_tasks` attribute recomputed by `AnydoListDevice.update`
from the list data: the summaries of the ranked tasks. -/
def all_tasks_attribute (s : ListState) : List String :=
  s.all_list_tasks.map AnydoTask.summary

/-! ## The HTTP request wrapper (`api/request.py`) -/

/-- The typed error taxonomy raised by
`Request._check_response_for_errors`. -/
inductive ApiError where
  | badRequest
  | unauthorized
  | conflict
  | internalServer
  deriving DecidableEq, Repr

/-- Embedding of `Request._check_response_for_errors`: `response.raise_for_status()`
(from the `requests` library) raises exactly for status codes in
400-599; the handler then maps 400, 401 and 409 to their dedicated
errors and every other raising status to `InternalServerError`.
`none` means no error is raised. -/
def check_response (status : Nat) : Option ApiError :=
  if 400 ≤ status ∧ status < 600 then
    some (if status = 400 then ApiError.badRequest
          else if status = 401 then ApiError.unauthorized
          else if status = 409 then ApiError.conflict
          else ApiError.internalServer)
  else none

/-- The session-holding state of a `Request` object.  Sessions are
identified by a generation counter so that a re-authentication visibly
produces a fresh session. -/
structure RequestState where
  session : Option Nat
  nextGen : Nat
  deriving DecidableEq, Repr

/-- Embedding of `Request._generate_session`: create a fresh `requests.Session` and
log in with it (the network side of the login is not observable here,
only the fresh session identity). -/
def generate_session (st : RequestState) : RequestState :=
  { session := some st.nextGen, nextGen := st.nextGen + 1 }

/-- One attempt of `Request._base_request` up to the error check:
generate a session if none is held (`if self._session is None`), issue
the request and classify the response status.  `server gen method url`
gives the HTTP status the server answers to a request on session `gen`;
the JSON body is not modelled, so a successful call is represented by
its status.  (`self._session.close()` and the GET-only 5xx retry
adapter have no observable effect in this model.) -/
def attempt (server : Nat → String → String → Nat) (st : RequestState)
    (method url : String) : RequestState × Option ApiError × Nat :=
  let st1 := if st.session.isNone then generate_session st else st
  let status := server (st1.session.getD 0) method url
  (st1, check_response status, status)

/-- Embedding of `Request._base_request`.  On a 401 with `session_refreshed` set the
error propagates; on a 401 with it unset the source runs
`self._session = self._generate_session()` (note: `_generate_session`
returns `None`, so the attribute ends up `None` and the recursive call
builds yet another session) and then recursively calls itself with
`url=method` — the method name, not the original URL — and
`_session_refreshed=True`.  Since the flag bounds that recursion at a
single retry, the recursive call is unrolled here: on its 401 (or any
other error) the error propagates, otherwise its status is returned. -/
def base_request (server : Nat → String → String → Nat) (st : RequestState)
    (method url : String) (session_refreshed : Bool) :
    RequestState × Except ApiError Nat :=
  match attempt server st method url with
  | (st1, some ApiError.unauthorized, _) =>
    if session_refreshed then (st1, Except.error ApiError.unauthorized)
    else
      match attempt server { generate_session st1 with session := none }
          method method with
      | (st2, some e2, _) => (st2, Except.error e2)
      | (st2, none, status2) => (st2, Except.ok status2)
  | (st1, some e, _) => (st1, Except.error e)
  | (st1, none, status) => (st1, Except.ok status)

/-! ## Concrete scenario inputs -/

/-- The acquisition instant for the ranking scenario: some time within
(UTC) day 10. -/
def exNow : Nat := 10 * msPerDay + 1000

/-- Task A: due yesterday (day 9), incomplete. -/
def rawA : RawTask := ⟨"A", "", "", "UNCHECKED", "a", [], 9 * msPerDay + 500, 1⟩

/-- Task B: due tomorrow (day 11), incomplete. -/
def rawB : RawTask := ⟨"B", "", "", "UNCHECKED", "b", [], 11 * msPerDay + 500, 1⟩

/-- Task C: no due date, completed. -/
def rawC : RawTask := ⟨"C", "", "", "CHECKED", "c", [], 0, 1⟩

/-- A list configured with an id, no tag whitelist and no due-date
horizon. -/
def cfgPlain : ListConfig := ⟨some 1, [], none, [], []⟩

/-- A list configured with a tag whitelist but no due-date horizon. -/
def cfgTagged : ListConfig := ⟨some 1, [], none, ["work"], []⟩

/-- The initial `AnydoListData` state: no event, empty ranking. -/
def state0 : ListState := ⟨none, []⟩

/-- An incomplete event due 2024-01-01T09:00Z (2024-01-01 is epoch day
19723). -/
def task0900 : AnydoTask :=
  ⟨"nine", "", "", false, "", [], 0,
   some (19723 * msPerDay + 9 * msPerHour), false, false, none⟩

/-- An incomplete event due 2024-01-01T15:00Z. -/
def task1500 : AnydoTask :=
  ⟨"fifteen", "", "", false, "", [], 0,
   some (19723 * msPerDay + 15 * msPerHour), false, false, none⟩

/-- An incomplete event with no end time. -/
def noEndTaskX : AnydoTask :=
  ⟨"X", "", "", false, "", [], 0, none, false, false, some true⟩

/-- Another incomplete event with no end time. -/
def noEndTaskY : AnydoTask :=
  ⟨"Y", "", "", false, "", [], 0, none, false, false, some true⟩

/-- A completed event that does carry an end time. -/
def doneTaskZ : AnydoTask :=
  ⟨"Z", "", "", true, "", [], 0, some (5 * msPerDay), false, false, none⟩

/-- The Any.do "me" endpoint, a stand-in original request URL. -/
def meUrl : String := "https://sm-prod2.any.do/api/v2/me"

/-- A server that answers 401 Unauthorized to every request for `meUrl`,
on every session and for every method, and 200 to anything else. -/
def srv401 : Nat → String → String → Nat :=
  fun _ _ url => if url = meUrl then 401 else 200

/-- A previous-cycle state holding a non-empty ranking, to observe the
frame behaviour of `update` on a skipped cycle. -/
def statePrev : ListState := ⟨some task0900, [task0900]⟩

/-- The strict precedence of end timestamps used by the selection: an
earlier calendar date, or the same calendar date and an earlier exact
timestamp. -/
abbrev EndBefore (ta tb : Nat) : Prop :=
  dateOf ta < dateOf tb ∨ (dateOf ta = dateOf tb ∧ ta < tb)

/-- Scan invariant for the selection: the current event carries an end
timestamp that strictly precedes `tb` under the selection's (date, then
exact timestamp) precedence. -/
abbrev EndBelow (tb : Nat) (e : AnydoTask) : Prop :=
  ∃ te, e.«end» = some te ∧ EndBefore te tb

/-! ## Claim theorems -/

/-- C1 (counterexample): for the candidate set built by `update` from
task A (due yesterday, incomplete), B (due tomorrow, incomplete) and C
(no due date, completed), with no tag whitelist and no due-date horizon,
the produced ranking is NOT `[A, B]`: the completed task C is not
excluded from the ranking. -/
theorem c1_counterexample :
    (update cfgPlain exNow 10 [rawA, rawB, rawC] state0).all_list_tasks.map
      AnydoTask.summary ≠ ["A", "B"] := by decide

/-- C1 (amended): on that candidate set the repeated select-and-remove
ranking produces `[A, B, C]`: A first (and hence the current event), B
second, and the completed task C ranked last — the completed-skip only
demotes completed tasks, it does not exclude them, since the while loop
runs until the candidate list is empty. -/
theorem c1_ranking :
    (update cfgPlain exNow 10 [rawA, rawB, rawC] state0).all_list_tasks.map
      AnydoTask.summary = ["A", "B", "C"] ∧
    (update cfgPlain exNow 10 [rawA, rawB, rawC] state0).all_list_tasks.map
      AnydoTask.completed = [false, false, true] ∧
    (update cfgPlain exNow 10 [rawA, rawB, rawC] state0).event.map
      AnydoTask.summary = some "A" := by decide

/-- C7: the repeated select-and-remove ranking is a deterministic
function of the candidate task list — two runs on the same unchanged
list yield the same ranking. -/
theorem c7_deterministic (l1 l2 : List AnydoTask) (h : l1 = l2) :
    rank_tasks l1 = rank_tasks l2 := by rw [h]

/-- Witness for C7 at a concrete two-task list. -/
theorem c7_witness :
    rank_tasks [task1500, task0900] = rank_tasks [task1500, task0900] :=
  c7_deterministic [task1500, task0900] [task1500, task0900] rfl

/-- C9: `select_best_task` applies the completed-skip test only to
proposed events, never to the initial candidate taken from the last
list position: on a list whose last element Z is a completed event with
an end time while the other elements are incomplete events without one,
the selected "best" event is the completed last element Z. -/
theorem c9_completed_initial_kept :
    select_best_task [noEndTaskX, noEndTaskY, doneTaskZ] = some doneTaskZ ∧
    doneTaskZ.completed = true ∧
    doneTaskZ.«end» = some (5 * msPerDay) ∧
    noEndTaskX.completed = false ∧ noEndTaskX.«end» = none ∧
    noEndTaskY.completed = false ∧ noEndTaskY.«end» = none := by decide

/-- C8 (counterexample): a 302 response has a non-2xx status, yet
`_check_response_for_errors` raises no error for it —
`response.raise_for_status()` only raises for statuses in 400-599, so
not every non-2xx status is mapped to a typed error. -/
theorem c8_counterexample :
    (¬ (200 ≤ 302 ∧ 302 < 300)) ∧ check_response 302 = none := by decide

/-- C8 (amended): for statuses in 400-599 the wrapper raises the typed
error determined by the status code — 400 BadRequest, 401 Unauthorized,
409 Conflict, anything else InternalServerError — while every status
outside 400-599 (in particular every 2xx and every 3xx) raises no
error. -/
theorem c8_status_mapping (s : Nat) :
    (s = 400 → check_response s = some ApiError.badRequest) ∧
    (s = 401 → check_response s = some ApiError.unauthorized) ∧
    (s = 409 → check_response s = some ApiError.conflict) ∧
    (400 ≤ s → s < 600 → s ≠ 400 → s ≠ 401 → s ≠ 409 →
      check_response s = some ApiError.internalServer) ∧
    (s < 400 ∨ 600 ≤ s → check_response s = none) := by
  unfold check_response
  refine ⟨?_, ?_, ?_, ?_, ?_⟩
  · rintro rfl; decide
  · rintro rfl; decide
  · rintro rfl; decide
  · intro h1 h2 h3 h4 h5
    rw [if_pos ⟨h1, h2⟩, if_neg h3, if_neg h4, if_neg h5]
  · rintro (h | h)
    · rw [if_neg]; omega
    · rw [if_neg]; omega

/-- Witness for C8 at concrete statuses: a generic 4xx (418) maps to
InternalServerError and a 204 success raises nothing. -/
theorem c8_witness :
    check_response 418 = some ApiError.internalServer ∧
    check_response 204 = none :=
  ⟨(c8_status_mapping 418).2.2.2.1 (by decide) (by decide) (by decide)
      (by decide) (by decide),
   (c8_status_mapping 204).2.2.2.2 (Or.inl (by decide))⟩

/-- C6 (code evaluated at the failing input): against a server that
answers 401 to every request for the original URL on every session, a
first call for that URL does not propagate Unauthorized — the retry
after re-authentication is issued with `url=method` (the literal string
"get"), not the original URL, so here it succeeds with the 200 the
server gives that unrelated URL.  Had the retry re-requested the
original URL it would have received the second 401 and propagated it. -/
theorem c6_retry_url_bug :
    (∀ gen method, srv401 gen method meUrl = 401) ∧
    (∀ gen, srv401 gen "get" "get" = 200) ∧
    base_request srv401 ⟨none, 0⟩ "get" meUrl false =
      (⟨some 2, 3⟩, Except.ok 200) := by
  refine ⟨fun gen method => ?_, fun gen => ?_, ?_⟩
  · simp [srv401]
  · simp [srv401, meUrl]
  · rfl

/-- A no-end-time incomplete proposed event replaces a no-end-time
current event (the `event = proposed_event` shortcut returns the same
value there). -/
theorem select_step_no_end (e p : AnydoTask) (hp : p.completed = false)
    (hpe : p.«end» = none) (he : e.«end» = none) : select_step e p = p := by
  by_cases hep : e = p
  · simp [select_step, hep]
  · simp [select_step, hep, hp, hpe, he]

/-- A current event with an end time is never replaced by a proposed
event without one. -/
theorem select_step_keeps_end (e p : AnydoTask) (he : e.«end».isSome)
    (hpe : p.«end» = none) : select_step e p = e := by
  by_cases hep : e = p
  · simp [select_step, hep]
  · obtain ⟨te, hte⟩ := Option.isSome_iff_exists.mp he
    by_cases hc : p.completed = true <;>
      simp [select_step, hep, hc, hpe, hte]

/-- Scanning a list of incomplete, no-end-time events always ends on
the value of the last element (or on the start value for the empty
list). -/
theorem foldl_all_no_end (l : List AnydoTask) (a : AnydoTask)
    (hl : ∀ x ∈ l, x.completed = false ∧ x.«end» = none)
    (ha : a.«end» = none) :
    List.foldl select_step a l = (l.getLast?).getD a := by
  induction l generalizing a with
  | nil => rfl
  | cons x xs ih =>
    have hx := hl x (List.mem_cons_self x xs)
    have hstep : select_step a x = x := select_step_no_end a x hx.1 hx.2 ha
    rw [List.foldl_cons, hstep,
      ih x (fun y hy => hl y (List.mem_cons_of_mem x hy)) hx.2]
    cases xs with
    | nil => rfl
    | cons z zs =>
      rw [List.getLast?_cons_cons]
      cases hzl : (z :: zs).getLast? with
      | none => exact absurd (List.getLast?_eq_none_iff.mp hzl) (by simp)
      | some w => rfl

/-- C3: `select_best_task` starts from the last element: on a non-empty
candidate list whose events are all incomplete and without end times
(equally ranked under the selection criteria), the selected event is
the last list element; and (second conjunct) a current best that has an
end time is never replaced by a candidate without one. -/
theorem c3_no_end_fallback :
    (∀ l : List AnydoTask, l ≠ [] →
      (∀ x ∈ l, x.completed = false ∧ x.«end» = none) →
      select_best_task l = l.getLast?) ∧
    (∀ e p : AnydoTask, e.«end».isSome → p.«end» = none →
      select_step e p = e) := by
  constructor
  · intro l hne hall
    cases hlast : l.getLast? with
    | none => exact absurd (List.getLast?_eq_none_iff.mp hlast) hne
    | some last =>
      have hmem : last ∈ l := by
        obtain ⟨h, rfl⟩ := List.mem_getLast?_eq_getLast hlast
        exact List.getLast_mem h
      have hsel : select_best_task l =
          some (List.foldl select_step last l) := by
        unfold select_best_task
        rw [hlast]
      rw [hsel, foldl_all_no_end l last hall (hall last hmem).2, hlast]
      rfl
  · exact select_step_keeps_end

/-- Witness for C3: on the concrete all-no-end list `[X, Y]` the last
element Y is selected, and a concrete end-time-bearing best is kept
against a no-end-time challenger. -/
theorem c3_witness :
    select_best_task [noEndTaskX, noEndTaskY] = some noEndTaskY ∧
    select_step task0900 noEndTaskX = task0900 := by
  constructor
  · have h := c3_no_end_fallback.1 [noEndTaskX, noEndTaskY] (by decide)
      (by decide)
    simpa using h
  · exact c3_no_end_fallback.2 task0900 noEndTaskX (by decide) (by decide)

/-- C4: for a task with a nonzero due date that the mapping does not
filter out, a due date at or before the acquisition instant yields
`overdue = true` with the end time clamped to start + 1 hour (hence
strictly after the start), and a due date strictly after the
acquisition instant yields `overdue = false` with the parsed due date
as end time. -/
theorem c4_overdue_clamp (cfg : ListConfig) (now today : Nat)
    (data : RawTask) (ev : AnydoTask)
    (hdue : data.dueDate ≠ 0)
    (hev : create_anydo_task cfg now today data = some ev) :
    (data.dueDate ≤ now →
      ev.overdue = true ∧ ev.«end» = some (now + msPerHour) ∧
      ev.start = now ∧ now < now + msPerHour) ∧
    (now < data.dueDate →
      ev.overdue = false ∧ ev.«end» = some data.dueDate ∧ ev.start = now) := by
  unfold create_anydo_task at hev
  split_ifs at hev with hwl hnz hcut
  · obtain rfl := Option.some.inj hev
    exact ⟨fun _ => ⟨rfl, rfl, rfl, by simp [msPerHour]⟩,
      fun hgt => absurd hcut (by omega)⟩
  · obtain rfl := Option.some.inj hev
    exact ⟨fun hle2 => absurd hle2 hcut, fun _ => ⟨rfl, rfl, rfl⟩⟩

/-- Witness for C4 at the boundary: a task due exactly at the
acquisition instant is overdue with end time start + 1 hour. -/
theorem c4_witness :
    (⟨"D", "", "", "UNCHECKED", "d", [], exNow, 1⟩ : RawTask).dueDate ≤
      exNow ∧
    ∃ ev, create_anydo_task cfgPlain exNow 10
        ⟨"D", "", "", "UNCHECKED", "d", [], exNow, 1⟩ = some ev ∧
      ev.overdue = true ∧ ev.«end» = some (exNow + msPerHour) ∧
      ev.start = exNow ∧ exNow < exNow + msPerHour := by
  refine ⟨by decide, ?_⟩
  cases hev : create_anydo_task cfgPlain exNow 10
      ⟨"D", "", "", "UNCHECKED", "d", [], exNow, 1⟩ with
  | none => exact absurd hev (by decide)
  | some ev =>
    have h := (c4_overdue_clamp cfgPlain exNow 10
        ⟨"D", "", "", "UNCHECKED", "d", [], exNow, 1⟩ ev (by decide) hev).1
      (by decide)
    exact ⟨ev, rfl, h⟩

/-- C5 (counterexample): with a tag whitelist configured and NO
due-date horizon, a task with no due date and no matching tags is
excluded by the mapping — so "if no horizon is configured the task is
always included" is false: the tag whitelist can still exclude it. -/
theorem c5_counterexample :
    cfgTagged.due_date_days = none ∧
    (⟨"N", "", "", "UNCHECKED", "n", [], 0, 1⟩ : RawTask).dueDate = 0 ∧
    create_anydo_task cfgTagged exNow 10
      ⟨"N", "", "", "UNCHECKED", "n", [], 0, 1⟩ = none := by decide

/-- C5 (amended): for a task with no due date, a configured due-date
horizon always excludes it; with no horizon configured it is included
as an all-day, not-due-today, not-overdue event without end time
provided it passes the tag whitelist (no whitelist configured, or some
whitelisted tag among its resolved tags). -/
theorem c5_no_due_date (cfg : ListConfig) (now today : Nat) (data : RawTask)
    (hdue : data.dueDate = 0) :
    (cfg.due_date_days.isSome = true →
      create_anydo_task cfg now today data = none) ∧
    (cfg.due_date_days = none →
      (cfg.tag_whitelist = [] ∨
        cfg.tag_whitelist.any (fun tag => tag ∈ resolve_tags cfg data) = true) →
      create_anydo_task cfg now today data =
        some (mk_task data (resolve_tags cfg data) now none false false
          (some true))) := by
  constructor
  · intro hsome
    simp [create_anydo_task, hdue, hsome]
  · intro hnone hwl
    have hw : ¬ (cfg.tag_whitelist ≠ [] ∧
        ¬ (cfg.tag_whitelist.any
          (fun tag => tag ∈ resolve_tags cfg data)) = true) := by
      rcases hwl with h | h
      · simp [h]
      · simp [h]
    unfold create_anydo_task
    rw [if_neg hw]
    simp [hdue, hnone]

/-- Witness for C5: a no-due-date task is excluded under a 7-day
horizon and included as an all-day event without one. -/
theorem c5_witness :
    create_anydo_task ⟨some 1, [], some 7, [], []⟩ exNow 10
      ⟨"N", "", "", "UNCHECKED", "n", [], 0, 1⟩ = none ∧
    create_anydo_task cfgPlain exNow 10
      ⟨"N", "", "", "UNCHECKED", "n", [], 0, 1⟩ =
      some (mk_task ⟨"N", "", "", "UNCHECKED", "n", [], 0, 1⟩ [] exNow none
        false false (some true)) := by
  constructor
  · exact (c5_no_due_date ⟨some 1, [], some 7, [], []⟩ exNow 10
      ⟨"N", "", "", "UNCHECKED", "n", [], 0, 1⟩ rfl).1 rfl
  · have h := (c5_no_due_date cfgPlain exNow 10
      ⟨"N", "", "", "UNCHECKED", "n", [], 0, 1⟩ rfl).2 rfl (Or.inl rfl)
    simpa [resolve_tags] using h

/-- C10: an `update` cycle whose list-filtered task data is empty, or
whose every task is filtered out by the event mapping, only resets the
current event to `None` and leaves `all_list_tasks` (and hence the
`all_tasks` attribute) exactly as the previous cycle left it; only a
cycle producing at least one valid event clears and rebuilds the
ranking, whose result does not depend on the previous state. -/
theorem c10_frame (cfg : ListConfig) (now today : Nat)
    (user_tasks : List RawTask) (s : ListState) :
    (filter_list_tasks cfg user_tasks = [] →
      update cfg now today user_tasks s = { s with event := none } ∧
      all_tasks_attribute (update cfg now today user_tasks s) =
        all_tasks_attribute s) ∧
    ((filter_list_tasks cfg user_tasks).filterMap
        (create_anydo_task cfg now today) = [] →
      update cfg now today user_tasks s = { s with event := none } ∧
      all_tasks_attribute (update cfg now today user_tasks s) =
        all_tasks_attribute s) ∧
    ((filter_list_tasks cfg user_tasks).filterMap
        (create_anydo_task cfg now today) ≠ [] →
      (update cfg now today user_tasks s).all_list_tasks =
        rank_tasks ((filter_list_tasks cfg user_tasks).filterMap
          (create_anydo_task cfg now today)) ∧
      (update cfg now today user_tasks s).event =
        (rank_tasks ((filter_list_tasks cfg user_tasks).filterMap
          (create_anydo_task cfg now today))).head?) := by
  refine ⟨?_, ?_, ?_⟩
  · intro h
    have hu : update cfg now today user_tasks s = { s with event := none } := by
      unfold update
      rw [if_pos h]
    exact ⟨hu, by rw [hu]; rfl⟩
  · intro h
    by_cases hf : filter_list_tasks cfg user_tasks = []
    · have hu : update cfg now today user_tasks s =
          { s with event := none } := by
        unfold update
        rw [if_pos hf]
      exact ⟨hu, by rw [hu]; rfl⟩
    · have hu : update cfg now today user_tasks s =
          { s with event := none } := by
        unfold update
        rw [if_neg hf, if_pos h]
      exact ⟨hu, by rw [hu]; rfl⟩
  · intro h
    have hf : filter_list_tasks cfg user_tasks ≠ [] := by
      intro hf
      exact h (by rw [hf]; rfl)
    have hu : update cfg now today user_tasks s =
        { event := (rank_tasks ((filter_list_tasks cfg user_tasks).filterMap
            (create_anydo_task cfg now today))).head?,
          all_list_tasks := rank_tasks ((filter_list_tasks cfg
            user_tasks).filterMap (create_anydo_task cfg now today)) } := by
      unfold update
      rw [if_neg hf, if_neg h]
    rw [hu]
    exact ⟨rfl, rfl⟩

/-- Witness for C10: on an empty poll against a state holding a
previous ranking, the event is reset but the ranking is retained. -/
theorem c10_witness :
    update cfgPlain exNow 10 [] statePrev =
      { statePrev with event := none } ∧
    all_tasks_attribute (update cfgPlain exNow 10 [] statePrev) =
      all_tasks_attribute statePrev :=
  (c10_frame cfgPlain exNow 10 [] statePrev).1 rfl

/-- Each scan step keeps either the current event or the proposed
one. -/
theorem select_step_cases (e p : AnydoTask) :
    select_step e p = e ∨ select_step e p = p := by
  unfold select_step
  by_cases h1 : e = p
  · rw [if_pos h1]
    exact Or.inl rfl
  · rw [if_neg h1]
    by_cases h2 : p.completed = true
    · rw [if_pos h2]
      exact Or.inl rfl
    · rw [if_neg h2]
      cases hp : p.«end» with
      | none =>
        cases he : e.«end» with
        | none => exact Or.inr rfl
        | some te => exact Or.inl rfl
      | some pe =>
        cases he : e.«end» with
        | none => exact Or.inr rfl
        | some te =>
          simp only
          split_ifs
          · exact Or.inl rfl
          · exact Or.inr rfl
          · exact Or.inr rfl
          · exact Or.inl rfl

/-- The scanned value stays within the start value and the list. -/
theorem foldl_select_mem (l : List AnydoTask) (a : AnydoTask) :
    List.foldl select_step a l = a ∨ List.foldl select_step a l ∈ l := by
  induction l generalizing a with
  | nil => exact Or.inl rfl
  | cons x xs ih =>
    rw [List.foldl_cons]
    rcases ih (select_step a x) with h | h
    · rw [h]
      rcases select_step_cases a x with h2 | h2
      · exact Or.inl h2
      · rw [h2]
        exact Or.inr (List.mem_cons_self x xs)
    · exact Or.inr (List.mem_cons_of_mem x h)

/-- The selected best task is an element of the candidate list. -/
theorem select_best_task_mem (l : List AnydoTask) (x : AnydoTask)
    (h : select_best_task l = some x) : x ∈ l := by
  unfold select_best_task at h
  cases hlast : l.getLast? with
  | none =>
    rw [hlast] at h
    cases h
  | some last =>
    rw [hlast] at h
    have hmem : last ∈ l := by
      obtain ⟨hne, rfl⟩ := List.mem_getLast?_eq_getLast hlast
      exact List.getLast_mem hne
    obtain rfl := Option.some.inj h
    rcases foldl_select_mem l last with h2 | h2
    · rw [h2]
      exact hmem
    · exact h2

/-- A step never breaks the `EndBelow` invariant: a current event whose
end precedes `tb` is only ever replaced by a proposed event whose end
also precedes `tb`. -/
theorem select_step_preserves (tb : Nat) (e p : AnydoTask)
    (he : EndBelow tb e) : EndBelow tb (select_step e p) := by
  obtain ⟨te, hte, hbe⟩ := he
  unfold select_step
  by_cases h1 : e = p
  · rw [if_pos h1]
    exact ⟨te, hte, hbe⟩
  · rw [if_neg h1]
    by_cases h2 : p.completed = true
    · rw [if_pos h2]
      exact ⟨te, hte, hbe⟩
    · rw [if_neg h2]
      cases hp : p.«end» with
      | none =>
        rw [hte]
        exact ⟨te, hte, hbe⟩
      | some pe =>
        rw [hte]
        simp only
        split_ifs with hgt hlt hts
        · exact ⟨te, hte, hbe⟩
        · refine ⟨pe, hp, ?_⟩
          rcases hbe with h | ⟨h, _⟩
          · exact Or.inl (hlt.trans h)
          · exact Or.inl (h ▸ hlt)
        · have hdeq : dateOf pe = dateOf te := by omega
          refine ⟨pe, hp, ?_⟩
          rcases hbe with h | ⟨heq, hlt2⟩
          · exact Or.inl (hdeq ▸ h)
          · exact Or.inr ⟨hdeq.trans heq, hts.trans hlt2⟩
        · exact ⟨te, hte, hbe⟩

/-- Once the scan has processed an incomplete event `a` whose end
precedes `tb`, the invariant holds no matter what the current event
was. -/
theorem select_step_establishes (tb : Nat) (e a : AnydoTask) (ta : Nat)
    (hac : a.completed = false) (hae : a.«end» = some ta)
    (hlt : EndBefore ta tb) : EndBelow tb (select_step e a) := by
  unfold select_step
  by_cases h1 : e = a
  · rw [if_pos h1]
    exact ⟨ta, h1 ▸ hae, hlt⟩
  · rw [if_neg h1, if_neg (by rw [hac]; exact Bool.false_ne_true)]
    rw [hae]
    cases he : e.«end» with
    | none => exact ⟨ta, hae, hlt⟩
    | some te =>
      simp only
      split_ifs with hgt hlt2 hts
      · refine ⟨te, he, ?_⟩
        rcases hlt with h | ⟨h, _⟩
        · exact Or.inl (hgt.trans h)
        · exact Or.inl (h ▸ hgt)
      · exact ⟨ta, hae, hlt⟩
      · exact ⟨ta, hae, hlt⟩
      · have hdeq : dateOf te = dateOf ta := by omega
        refine ⟨te, he, ?_⟩
        rcases hlt with h | ⟨heq, hlt3⟩
        · exact Or.inl (hdeq ▸ h)
        · refine Or.inr ⟨hdeq.trans heq, ?_⟩
          have hle : te ≤ ta := by omega
          exact lt_of_le_of_lt hle hlt3

/-- The invariant survives the rest of the scan. -/
theorem foldl_select_preserves (tb : Nat) (l : List AnydoTask)
    (e : AnydoTask) (he : EndBelow tb e) :
    EndBelow tb (List.foldl select_step e l) := by
  induction l generalizing e with
  | nil => exact he
  | cons x xs ih =>
    rw [List.foldl_cons]
    exact ih (select_step e x) (select_step_preserves tb e x he)

/-- Scanning any list that contains an incomplete event whose end
precedes `tb` ends on an event whose end precedes `tb`. -/
theorem foldl_select_establishes (tb : Nat) (l : List AnydoTask)
    (e a : AnydoTask) (ta : Nat) (ha : a ∈ l) (hac : a.completed = false)
    (hae : a.«end» = some ta) (hlt : EndBefore ta tb) :
    EndBelow tb (List.foldl select_step e l) := by
  induction l generalizing e with
  | nil => cases ha
  | cons x xs ih =>
    rw [List.foldl_cons]
    rcases List.mem_cons.mp ha with rfl | hmem
    · exact foldl_select_preserves tb xs (select_step e a)
        (select_step_establishes tb e a ta hac hae hlt)
    · exact ih (select_step e x) hmem

/-- While an incomplete event with a strictly preceding end timestamp
remains in the candidate list, the selection never picks `b`. -/
theorem select_best_task_ne (l : List AnydoTask) (a b : AnydoTask)
    (ta tb : Nat) (ha : a ∈ l) (hac : a.completed = false)
    (hae : a.«end» = some ta) (hbe : b.«end» = some tb)
    (hlt : EndBefore ta tb) : select_best_task l ≠ some b := by
  intro hsel
  unfold select_best_task at hsel
  cases hlast : l.getLast? with
  | none =>
    rw [hlast] at hsel
    cases hsel
  | some last =>
    rw [hlast] at hsel
    obtain heq := Option.some.inj hsel
    have hbelow := foldl_select_establishes tb l last a ta ha hac hae hlt
    rw [heq] at hbelow
    obtain ⟨te, hte, hbefore⟩ := hbelow
    rw [hbe] at hte
    obtain rfl := Option.some.inj hte
    rcases hbefore with h | ⟨_, h⟩
    · exact lt_irrefl _ h
    · exact lt_irrefl _ h

/-- In the ranking produced by repeated select-and-remove, an
incomplete event whose end strictly precedes `b`'s (earlier calendar
date, or same date and earlier exact timestamp) is placed at a strictly
smaller index than `b`. -/
theorem rank_aux_indexOf (a b : AnydoTask) (ta tb : Nat)
    (hac : a.completed = false) (hae : a.«end» = some ta)
    (hbe : b.«end» = some tb) (hlt : EndBefore ta tb) :
    ∀ (n : Nat) (l : List AnydoTask), l.length ≤ n → a ∈ l → b ∈ l →
      (rank_aux n l).indexOf a < (rank_aux n l).indexOf b := by
  have hab : a ≠ b := by
    intro h
    rw [h, hbe] at hae
    obtain rfl := Option.some.inj hae
    rcases hlt with h2 | ⟨_, h2⟩ <;> exact lt_irrefl _ h2
  intro n
  induction n with
  | zero =>
    intro l hlen ha _
    interval_cases hl : l.length
    rw [List.length_eq_zero] at hl
    subst hl
    cases ha
  | succ n ih =>
    intro l hlen ha hb
    match l, ha, hb, hlen with
    | t :: ts, ha, hb, hlen =>
    cases hsel : select_best_task (t :: ts) with
    | none =>
      unfold select_best_task at hsel
      cases hlast : (t :: ts).getLast? with
      | none => exact absurd (List.getLast?_eq_none_iff.mp hlast) (by simp)
      | some last =>
        rw [hlast] at hsel
        cases hsel
    | some best =>
      have hrank : rank_aux (n + 1) (t :: ts) =
          best :: rank_aux n ((t :: ts).erase best) := by
        rw [rank_aux.eq_3, hsel]
      have hmem : best ∈ t :: ts := select_best_task_mem _ _ hsel
      have hbb : best ≠ b := by
        intro h
        exact select_best_task_ne (t :: ts) a b ta tb ha hac hae hbe hlt
          (h ▸ hsel)
      rw [hrank]
      by_cases hba : best = a
      · subst hba
        rw [List.indexOf_cons_self,
          List.indexOf_cons_ne _ (fun h => hbb h)]
        exact Nat.succ_pos _
      · have hlen2 : ((t :: ts).erase best).length ≤ n := by
          have := List.length_erase_add_one hmem
          omega
        have ha2 : a ∈ (t :: ts).erase best :=
          (List.mem_erase_of_ne (fun h => hba h.symm)).mpr ha
        have hb2 : b ∈ (t :: ts).erase best :=
          (List.mem_erase_of_ne (fun h => hbb h.symm)).mpr hb
        rw [List.indexOf_cons_ne _ (fun h => hba h),
          List.indexOf_cons_ne _ (fun h => hbb h)]
        exact Nat.succ_lt_succ (ih _ hlen2 ha2 hb2)

/-- C2: for every candidate list and every pair of incomplete,
end-time-bearing events in it, the ranking places an event with an end
on a strictly earlier calendar date above one on a strictly later date,
regardless of list positions; and for ends on the same calendar date,
the event with the earlier exact end timestamp is ranked above the
other. -/
theorem c2_earlier_outranks (l : List AnydoTask) (a b : AnydoTask)
    (ta tb : Nat) (hal : a ∈ l) (hbl : b ∈ l)
    (hac : a.completed = false) (hbc : b.completed = false)
    (hae : a.«end» = some ta) (hbe : b.«end» = some tb)
    (hlt : EndBefore ta tb) :
    (rank_tasks l).indexOf a < (rank_tasks l).indexOf b :=
  rank_aux_indexOf a b ta tb hac hae hbe hlt l.length l le_rfl hal hbl

/-- Witness for C2 on the spec's scenario: both events due 2024-01-01,
at 09:00Z and 15:00Z; the 09:00Z one is selected first and ranked above
the 15:00Z one although it sits later in the list. -/
theorem c2_witness :
    EndBefore (19723 * msPerDay + 9 * msPerHour)
      (19723 * msPerDay + 15 * msPerHour) ∧
    select_best_task [task1500, task0900] = some task0900 ∧
    (rank_tasks [task1500, task0900]).indexOf task0900 <
      (rank_tasks [task1500, task0900]).indexOf task1500 :=
  ⟨by decide, by decide,
    c2_earlier_outranks [task1500, task0900] task0900 task1500
      (19723 * msPerDay + 9 * msPerHour) (19723 * msPerDay + 15 * msPerHour)
      (by decide) (by decide) (by decide) (by decide) (by decide) (by decide)
      (by decide)⟩

end Anydo
